import Mathlib

/-!
Verification development for the `ArrangementClipHandler` of
`abletonosc/arrangement_clip.py`: the arrangement-timeline clip operations
(create, delete, split, move, duplicate), the time-based index resolver,
and the MIDI note tuple encoding.

Numeric model: the source compares floating-point beat times only by
subtraction, absolute value and `< 0.001` tolerance — it never multiplies or
divides times.  We therefore embed times exactly as fixed-point micro-beats
(`ℤ`), with the tolerance `eps = 1000` micro-beats standing for 0.001 beats.
Every addition, subtraction, absolute value and comparison of the source is
preserved exactly under this scaling.

Host model: the Live API (`track.arrangement_clips`, `clip_slots`,
`duplicate_clip_to_arrangement`, `delete_clip`, slot operations) is an
external collaborator of the repository.  It is modelled from the spec:
`arrangement_clips` is the timeline-ordered sequence of clips (insertion at
the time-sorted position, which is what makes "sequence indices have shifted
because of the insertion" possible); the span a clip occupies on the
timeline is `[start_time, start_time + (end_marker - start_marker))`, so
that trimming the markers resizes the piece as the spec's split step
intends; a host without arrangement support (pre Live 11) raises an
attribute error at the first arrangement access, while the clip-scoped
callback raises its own explicit capability error.
-/

namespace AbletonOSC

/-- Times in micro-beats (fixed point, 10^6 units per beat). -/
abbrev Time := ℤ

/-- The resolver tolerance: 0.001 beats, i.e. 1000 micro-beats. -/
def eps : Time := 1000

/-- An arrangement clip.  `start_time` is its timeline position;
`start_marker`/`end_marker` delimit the played region in clip-content time
(`length = end_marker - start_marker`, `end_time = start_time + length`);
`loop_start`/`loop_end`/`looping` are the loop attributes the split handler
also touches. -/
structure Clip where
  start_time : Time
  start_marker : Time
  end_marker : Time
  loop_start : Time
  loop_end : Time
  looping : Bool
  deriving Repr, DecidableEq

/-- Played length of a clip: `end_marker - start_marker`. -/
def Clip.length (c : Clip) : Time := c.end_marker - c.start_marker

/-- Derived timeline end: `start_time + length`. -/
def Clip.end_time (c : Clip) : Time := c.start_time + c.length

/-- A track: the capability flag (`hasattr(track, 'arrangement_clips')`),
the timeline-ordered arrangement clips, and the session clip slots
(`none` = empty slot, i.e. `not slot.has_clip`). -/
structure Track where
  arrangement_supported : Bool
  arrangement_clips : List Clip
  clip_slots : List (Option Clip)
  deriving Repr, DecidableEq

/-- Errors the handler can raise, one constructor per Python exception
site: `outOfRange` for an IndexError on a track/clip/slot index,
`capabilityUnavailable` for the explicit
`RuntimeError("arrangement_clips not available")` of the clip-scoped
callback, `attributeError` for the Python AttributeError a track-level
operation hits when the host lacks arrangement support,
`noAvailableSlot` / `noClipInSlot` for the two slot RuntimeErrors,
`boundsViolation` for the split-bounds ValueError, and
`invalidArgumentCount` for the notes-arity ValueError. -/
inductive OscError where
  | outOfRange
  | capabilityUnavailable
  | attributeError
  | noAvailableSlot
  | noClipInSlot
  | boundsViolation
  | invalidArgumentCount
  deriving Repr, DecidableEq

/-- Modelled from the spec: reading `track.arrangement_clips` in a
track-level operation.  On a host without arrangement support the Python
attribute access raises; there is no explicit check in these operations. -/
def Track.getArrangementClips (t : Track) : Except OscError (List Clip) :=
  if t.arrangement_supported then .ok t.arrangement_clips
  else .error .attributeError

/-- Modelled from the spec: the host keeps `arrangement_clips` in timeline
order, so a duplicated clip is inserted at its time-sorted position (after
every clip whose `start_time` is ≤ the new one). -/
def insertArrangement (clips : List Clip) (c : Clip) : List Clip :=
  match clips with
  | [] => [c]
  | d :: rest =>
      if c.start_time < d.start_time then c :: d :: rest
      else d :: insertArrangement rest c

/-- Modelled from the spec: `track.duplicate_clip_to_arrangement(clip,
dest_time)` places a copy of `clip` at `dest_time`; on a host without
arrangement support the missing method raises an attribute error. -/
def Track.duplicateClipToArrangement (t : Track) (c : Clip) (dest : Time) :
    Except OscError Track :=
  if t.arrangement_supported then
    .ok { t with arrangement_clips :=
            insertArrangement t.arrangement_clips { c with start_time := dest } }
  else .error .attributeError

/-- Model of `track.delete_clip(clip)` where `clip` was just fetched at a known
index: removes the clip at that position of the sequence. -/
def Track.deleteClipAt (t : Track) (i : ℕ) : Track :=
  { t with arrangement_clips := t.arrangement_clips.eraseIdx i }

/-- The resolver's scan from a running index: first index `i + k` such that
`|clips[k].start_time - target| < eps`.  This is the loop
`for i, ac in enumerate(track.arrangement_clips): if abs(ac.start_time -
target) < 0.001: return i` shared by create, move and duplicate. -/
def findFrom (clips : List Clip) (target : Time) (i : ℕ) : Option ℕ :=
  match clips with
  | [] => none
  | c :: rest =>
      if |c.start_time - target| < eps then some i
      else findFrom rest target (i + 1)

/-- Timeline Index Resolver: first index whose `start_time` is within
`eps` of `target`, `none` when no clip matches. -/
def resolveClipIndex (clips : List Clip) (target : Time) : Option ℕ :=
  findFrom clips target 0

/-- The reply tail of create, move and duplicate: `(track_index, i)` when
the post-mutation re-scan finds a clip at the target time, the soft
sentinel `(track_index, -1)` when it does not. -/
def resolveReply (track_index : ℤ) (clips : List Clip) (target : Time) :
    List ℤ :=
  match resolveClipIndex clips target with
  | some i => [track_index, (i : ℤ)]
  | none => [track_index, -1]

/-- The reply tail of `duplicate_to_arrangement`: `(track_index, i)` on a
successful re-scan, the bare `(track_index,)` otherwise. -/
def resolveReplyBare (track_index : ℤ) (clips : List Clip) (target : Time) :
    List ℤ :=
  match resolveClipIndex clips target with
  | some i => [track_index, (i : ℤ)]
  | none => [track_index]

/-- The scratch clip `slot.create_clip(length)` allocates: a fresh MIDI
clip whose played region is `[0, length)`. -/
def scratchClip (len : Time) : Clip :=
  { start_time := 0, start_marker := 0, end_marker := len,
    loop_start := 0, loop_end := len, looping := true }

/-- The loop `for i, slot in enumerate(track.clip_slots): if not slot.has_clip:
break` — the first empty slot, scanning in index order. -/
def findEmptySlot (slots : List (Option Clip)) (i : ℕ) : Option ℕ :=
  match slots with
  | [] => none
  | none :: _ => some i
  | some _ :: rest => findEmptySlot rest (i + 1)

/-- Handler `create_arrangement_clip`: find the first empty session slot (error if
none), create a scratch clip of the requested length there, duplicate it
into the arrangement at `start_time`, delete the scratch, and resolve the
new clip by `start_time`.  The returned track reflects every mutation
performed before an error (Python exceptions do not roll state back). -/
def create_arrangement_clip (track_index : ℤ) (t : Track)
    (start_time len : Time) : Track × Except OscError (List ℤ) :=
  match findEmptySlot t.clip_slots 0 with
  | none => (t, .error .noAvailableSlot)
  | some si =>
      let t1 := { t with clip_slots := t.clip_slots.set si (some (scratchClip len)) }
      match t1.duplicateClipToArrangement (scratchClip len) start_time with
      | .error e => (t1, .error e)
      | .ok t2 =>
          let t3 := { t2 with clip_slots := t2.clip_slots.set si none }
          (t3, .ok (resolveReply track_index t3.arrangement_clips start_time))

/-- Handler `delete_arrangement_clip`: fetch the clip at `clip_index` and remove it. -/
def delete_arrangement_clip (track_index : ℤ) (t : Track) (clip_index : ℕ) :
    Track × Except OscError (List ℤ) :=
  match t.getArrangementClips with
  | .error e => (t, .error e)
  | .ok clips =>
      match clips[clip_index]? with
      | none => (t, .error .outOfRange)
      | some _ => (t.deleteClipAt clip_index, .ok [])

/-- Handler `duplicate_to_arrangement`: copy the session clip of `clip_slot_id`
into the arrangement at `dest_time` and resolve it by `dest_time`. -/
def duplicate_to_arrangement (track_index : ℤ) (t : Track)
    (clip_slot_id : ℕ) (dest_time : Time) : Track × Except OscError (List ℤ) :=
  match t.clip_slots[clip_slot_id]? with
  | none => (t, .error .outOfRange)
  | some slot =>
      match slot with
      | none => (t, .error .noClipInSlot)
      | some clip =>
          match t.duplicateClipToArrangement clip dest_time with
          | .error e => (t, .error e)
          | .ok t2 =>
              (t2, .ok (resolveReplyBare track_index t2.arrangement_clips dest_time))

/-- Handler `move_arrangement_clip`: duplicate the clip to `new_start`, then
re-fetch `track.arrangement_clips[clip_index]` — the clip now sitting at
the original ordinal index — delete it, and resolve the result by
`new_start`. -/
def move_arrangement_clip (track_index : ℤ) (t : Track) (clip_index : ℕ)
    (new_start : Time) : Track × Except OscError (List ℤ) :=
  match t.getArrangementClips with
  | .error e => (t, .error e)
  | .ok clips =>
      match clips[clip_index]? with
      | none => (t, .error .outOfRange)
      | some clip =>
          match t.duplicateClipToArrangement clip new_start with
          | .error e => (t, .error e)
          | .ok t2 =>
              match t2.arrangement_clips[clip_index]? with
              | none => (t2, .error .outOfRange)
              | some _ =>
                  let t3 := t2.deleteClipAt clip_index
                  (t3, .ok (resolveReply track_index t3.arrangement_clips new_start))

/-- The split handler's re-scan (one pass, two targets): walking the
post-duplication sequence, the first clip within `eps` of `orig_start` that
is met while no original has been chosen becomes the original piece, and
otherwise (`elif`) the first clip within `eps` of `split_time` while no new
piece has been chosen becomes the new piece.  `oi`/`ni` are the loop's
`orig_idx`/`new_idx` accumulators. -/
def splitScanAux (clips : List Clip) (orig_start split_time : Time) (i : ℕ)
    (oi ni : Option ℕ) : Option ℕ × Option ℕ :=
  match clips with
  | [] => (oi, ni)
  | c :: rest =>
      if |c.start_time - orig_start| < eps ∧ oi = none then
        splitScanAux rest orig_start split_time (i + 1) (some i) ni
      else if |c.start_time - split_time| < eps ∧ ni = none then
        splitScanAux rest orig_start split_time (i + 1) oi (some i)
      else
        splitScanAux rest orig_start split_time (i + 1) oi ni

/-- Replace the clip at position `i` by `f` of it (object mutation of a
clip fetched at a known index). -/
def updateAt : ℕ → (Clip → Clip) → List Clip → List Clip
  | _, _, [] => []
  | 0, f, c :: rest => f c :: rest
  | i + 1, f, c :: rest => c :: updateAt i f rest

/-- Assignment `orig_clip.end_marker = split_time - orig_start` plus the loop-end trim
when looping. -/
def trimEnd (off : Time) (c : Clip) : Clip :=
  { c with end_marker := off, loop_end := if c.looping then off else c.loop_end }

/-- Assignment `new_clip.start_marker = offset` plus the loop-start trim when looping. -/
def trimStart (off : Time) (c : Clip) : Clip :=
  { c with start_marker := off, loop_start := if c.looping then off else c.loop_start }

/-- Handler `split_arrangement_clip`: validate `split_time` strictly inside the
clip's `(start_time, end_time)` (ValueError otherwise, before any
mutation), duplicate the clip to `split_time`, re-scan for the original
and the new piece, trim the original's end markers and the new piece's
start markers by `split_time - orig_start`, and reply
`(track_index, orig_idx or clip_index, new_idx or -1)`. -/
def split_arrangement_clip (track_index : ℤ) (t : Track) (clip_index : ℕ)
    (split_time : Time) : Track × Except OscError (List ℤ) :=
  match t.getArrangementClips with
  | .error e => (t, .error e)
  | .ok clips =>
      match clips[clip_index]? with
      | none => (t, .error .outOfRange)
      | some clip =>
          let orig_start := clip.start_time
          let orig_end := clip.end_time
          if split_time ≤ orig_start ∨ orig_end ≤ split_time then
            (t, .error .boundsViolation)
          else
            match t.duplicateClipToArrangement clip split_time with
            | .error e => (t, .error e)
            | .ok t2 =>
                let scan := splitScanAux t2.arrangement_clips orig_start split_time 0 none none
                let clips2 :=
                  match scan.1 with
                  | some oi => updateAt oi (trimEnd (split_time - orig_start)) t2.arrangement_clips
                  | none => t2.arrangement_clips
                let clips3 :=
                  match scan.2 with
                  | some ni => updateAt ni (trimStart (split_time - orig_start)) clips2
                  | none => clips2
                ({ t2 with arrangement_clips := clips3 },
                 .ok [track_index,
                      (match scan.1 with | some oi => (oi : ℤ) | none => (clip_index : ℤ)),
                      (match scan.2 with | some ni => (ni : ℤ) | none => -1)])

/-- Handler `duplicate_arrangement_clip`: duplicate the clip to `dest_time` and
resolve the copy by `dest_time`. -/
def duplicate_arrangement_clip (track_index : ℤ) (t : Track) (clip_index : ℕ)
    (dest_time : Time) : Track × Except OscError (List ℤ) :=
  match t.getArrangementClips with
  | .error e => (t, .error e)
  | .ok clips =>
      match clips[clip_index]? with
      | none => (t, .error .outOfRange)
      | some clip =>
          match t.duplicateClipToArrangement clip dest_time with
          | .error e => (t, .error e)
          | .ok t2 =>
              (t2, .ok (resolveReply track_index t2.arrangement_clips dest_time))

/-- The clip-resolution prelude of `create_arrangement_clip_callback`, the
wrapper every clip-scoped command (get/set/start_listen/stop_listen of a
property, and the notes commands) goes through: it checks the capability
explicitly and raises `RuntimeError("arrangement_clips not available")`
before the clip is resolved. -/
def arrangement_clip_callback_resolve (t : Track) (clip_index : ℕ) :
    Except OscError Clip :=
  if ¬ t.arrangement_supported then .error .capabilityUnavailable
  else
    match t.arrangement_clips[clip_index]? with
    | none => .error .outOfRange
    | some c => .ok c

/-- A value of the untyped OSC parameter/reply tuples: integer, fixed-point
time (float in the source), or boolean. -/
inductive OscVal where
  | i : ℤ → OscVal
  | f : Time → OscVal
  | b : Bool → OscVal
  deriving Repr, DecidableEq

/-- A MIDI note as returned by the host's `get_notes_extended`. -/
structure MidiNote where
  pitch : ℤ
  start_time : Time
  duration : Time
  velocity : Time
  mute : Bool
  deriving Repr, DecidableEq

/-- The host's `Live.Clip.MidiNoteSpecification(start_time=..., duration=...,
pitch=..., velocity=..., mute=...)` record built by `clip_add_notes`. -/
structure MidiNoteSpecification where
  pitch : ℤ
  start_time : Time
  duration : Time
  velocity : Time
  mute : Bool
  deriving Repr, DecidableEq

/-- Body of `clip_get_notes`: for each note of the host's reply, in
order, append `[pitch, start_time, duration, velocity, mute]` to the flat
attribute list.  (`notes` stands for the result of the host's
`get_notes_extended` over the requested range.) -/
def clip_get_notes (notes : List MidiNote) : List OscVal :=
  (notes.map fun n =>
    [OscVal.i n.pitch, OscVal.f n.start_time, OscVal.f n.duration,
     OscVal.f n.velocity, OscVal.b n.mute]).flatten

/-- Body of `clip_add_notes`: read the flat parameter list
in consecutive groups of five as `pitch, start_time, duration, velocity,
mute` and build one `MidiNoteSpecification` per group; a trailing group of
the wrong shape is a failure (`none`). -/
def clip_add_notes : List OscVal → Option (List MidiNoteSpecification)
  | [] => some []
  | .i pitch :: .f start_time :: .f duration :: .f velocity :: .b mute :: rest =>
      (clip_add_notes rest).map fun ns =>
        { pitch := pitch, start_time := start_time, duration := duration,
          velocity := velocity, mute := mute } :: ns
  | _ => none

/-- The note attributes `clip_add_notes` recreates from one note of a
`clip_get_notes` reply. -/
def noteToSpec (n : MidiNote) : MidiNoteSpecification :=
  { pitch := n.pitch, start_time := n.start_time, duration := n.duration,
    velocity := n.velocity, mute := n.mute }

/-! ## Resolver lemmas -/

theorem findFrom_shift (clips : List Clip) (target : Time) (i : ℕ) :
    findFrom clips target i = (resolveClipIndex clips target).map (fun k => k + i) := by
  induction clips generalizing i with
  | nil => simp [findFrom, resolveClipIndex]
  | cons c rest ih =>
      by_cases h : |c.start_time - target| < eps
      · simp [findFrom, resolveClipIndex, h]
      · simp only [findFrom, resolveClipIndex, h, if_neg, if_false]
        rw [ih (i + 1), ih 1]
        cases resolveClipIndex rest target with
        | none => simp
        | some k => simp; omega

theorem resolve_cons (c : Clip) (rest : List Clip) (target : Time) :
    resolveClipIndex (c :: rest) target =
      if |c.start_time - target| < eps then some 0
      else (resolveClipIndex rest target).map (fun k => k + 1) := by
  by_cases h : |c.start_time - target| < eps
  · simp [resolveClipIndex, findFrom, h]
  · simp only [resolveClipIndex, findFrom, if_neg h]
    exact findFrom_shift rest target 1

theorem resolve_none_iff (clips : List Clip) (target : Time) :
    resolveClipIndex clips target = none ↔
      ∀ c ∈ clips, eps ≤ |c.start_time - target| := by
  induction clips with
  | nil => simp [resolveClipIndex, findFrom]
  | cons c rest ih =>
      rw [resolve_cons]
      by_cases h : |c.start_time - target| < eps
      · simp only [if_pos h]
        constructor
        · intro hc; exact absurd hc (by simp)
        · intro hall; exact absurd h (not_lt.mpr (hall c (by simp)))
      · simp only [if_neg h, Option.map_eq_none', ih]
        constructor
        · intro hall y hy
          rcases List.mem_cons.mp hy with rfl | hy'
          · exact not_lt.mp h
          · exact hall y hy'
        · intro hall y hy
          exact hall y (List.mem_cons_of_mem _ hy)

theorem resolve_first_match (clips : List Clip) (target : Time) (i : ℕ)
    (h : resolveClipIndex clips target = some i) :
    ∃ c, clips[i]? = some c ∧ |c.start_time - target| < eps ∧
      ∀ j, j < i → ∃ c', clips[j]? = some c' ∧ eps ≤ |c'.start_time - target| := by
  induction clips generalizing i with
  | nil => simp [resolveClipIndex, findFrom] at h
  | cons c rest ih =>
      rw [resolve_cons] at h
      by_cases hm : |c.start_time - target| < eps
      · rw [if_pos hm] at h
        injection h with h
        subst h
        exact ⟨c, by simp, hm, fun j hj => absurd hj (Nat.not_lt_zero j)⟩
      · rw [if_neg hm] at h
        cases hres : resolveClipIndex rest target with
        | none => rw [hres] at h; simp at h
        | some k =>
            rw [hres] at h
            simp only [Option.map_some'] at h
            injection h with h
            obtain ⟨c', hc', hmc', hfirst⟩ := ih k hres
            refine ⟨c', ?_, hmc', ?_⟩
            · rw [← h]; simpa using hc'
            · intro j hj
              match j with
              | 0 => exact ⟨c, by simp, not_lt.mp hm⟩
              | j' + 1 =>
                  obtain ⟨c'', hc'', hle⟩ := hfirst j' (by omega)
                  exact ⟨c'', by simpa using hc'', hle⟩

theorem resolve_unique (clips : List Clip) (target : Time) (x : Clip)
    (hx : x ∈ clips) (hm : |x.start_time - target| < eps)
    (huniq : ∀ y ∈ clips, |y.start_time - target| < eps → y = x) :
    ∃ p, resolveClipIndex clips target = some p ∧ clips[p]? = some x := by
  induction clips with
  | nil => simp at hx
  | cons c rest ih =>
      by_cases hmc : |c.start_time - target| < eps
      · have : c = x := huniq c (by simp) hmc
        subst this
        exact ⟨0, by simp [resolve_cons, hmc], by simp⟩
      · have hxrest : x ∈ rest := by
          rcases List.mem_cons.mp hx with rfl | h
          · exact absurd hm hmc
          · exact h
        obtain ⟨p, hp, hgp⟩ :=
          ih hxrest (fun y hy hmy => huniq y (List.mem_cons_of_mem _ hy) hmy)
        refine ⟨p + 1, ?_, by simpa using hgp⟩
        rw [resolve_cons, if_neg hmc, hp]
        rfl

/-! ## Structural lemmas for the host model -/

theorem insertArrangement_length (clips : List Clip) (c : Clip) :
    (insertArrangement clips c).length = clips.length + 1 := by
  induction clips with
  | nil => rfl
  | cons d rest ih =>
      by_cases h : c.start_time < d.start_time
      · simp [insertArrangement, h]
      · simp [insertArrangement, h, ih]

theorem insertArrangement_mem (clips : List Clip) (c x : Clip) :
    x ∈ insertArrangement clips c ↔ x = c ∨ x ∈ clips := by
  induction clips with
  | nil => simp [insertArrangement]
  | cons d rest ih =>
      by_cases h : c.start_time < d.start_time
      · simp [insertArrangement, h]
      · simp only [insertArrangement, if_neg h, List.mem_cons, ih]
        tauto

theorem updateAt_length (i : ℕ) (f : Clip → Clip) (l : List Clip) :
    (updateAt i f l).length = l.length := by
  induction l generalizing i with
  | nil => cases i <;> rfl
  | cons c rest ih =>
      cases i with
      | zero => rfl
      | succ j => simp only [updateAt, List.length_cons, ih]

theorem updateAt_getElem_self (i : ℕ) (f : Clip → Clip) (l : List Clip) :
    (updateAt i f l)[i]? = (l[i]?).map f := by
  induction l generalizing i with
  | nil => cases i <;> simp [updateAt]
  | cons c rest ih =>
      cases i with
      | zero => simp [updateAt]
      | succ j => simpa [updateAt] using ih j

theorem updateAt_getElem_ne (i j : ℕ) (f : Clip → Clip) (l : List Clip)
    (h : j ≠ i) : (updateAt i f l)[j]? = l[j]? := by
  induction l generalizing i j with
  | nil => cases i <;> simp [updateAt]
  | cons c rest ih =>
      cases i with
      | zero =>
          cases j with
          | zero => exact absurd rfl h
          | succ k => simp [updateAt]
      | succ m =>
          cases j with
          | zero => simp [updateAt]
          | succ k => simpa [updateAt] using ih m k (by omega)

theorem getElem?_some_lt {α : Type} {l : List α} {i : ℕ} {x : α}
    (h : l[i]? = some x) : i < l.length := by
  rcases List.getElem?_eq_some.mp h with ⟨hlt, _⟩
  exact hlt

theorem list_set_id {α : Type} (l : List α) (i : ℕ) (a : α)
    (h : l[i]? = some a) : l.set i a = l := by
  apply List.ext_getElem?
  intro n
  by_cases hn : n = i
  · subst hn; simp [List.getElem?_set_self', h]
  · simp [List.getElem?_set_ne (by omega : i ≠ n)]

theorem resolveReply_none (track_index : ℤ) (clips : List Clip) (target : Time)
    (h : resolveClipIndex clips target = none) :
    resolveReply track_index clips target = [track_index, -1] := by
  simp [resolveReply, h]

theorem resolveReplyBare_none (track_index : ℤ) (clips : List Clip) (target : Time)
    (h : resolveClipIndex clips target = none) :
    resolveReplyBare track_index clips target = [track_index] := by
  simp [resolveReplyBare, h]

/-! ## Success-path shapes of the compound operations -/

theorem create_ok (track_index : ℤ) (t : Track) (start_time len : Time) (si : ℕ)
    (hsupp : t.arrangement_supported = true)
    (hempty : findEmptySlot t.clip_slots 0 = some si) :
    create_arrangement_clip track_index t start_time len =
      ({ t with clip_slots := t.clip_slots.set si none,
                arrangement_clips := insertArrangement t.arrangement_clips
                  { scratchClip len with start_time := start_time } },
       .ok (resolveReply track_index
              (insertArrangement t.arrangement_clips
                { scratchClip len with start_time := start_time }) start_time)) := by
  simp only [create_arrangement_clip, hempty, Track.duplicateClipToArrangement, hsupp,
    if_true, List.set_set]

theorem move_ok (track_index : ℤ) (t : Track) (clip_index : ℕ) (new_start : Time)
    (clip : Clip)
    (hsupp : t.arrangement_supported = true)
    (hclip : t.arrangement_clips[clip_index]? = some clip) :
    move_arrangement_clip track_index t clip_index new_start =
      ({ t with arrangement_clips :=
            (insertArrangement t.arrangement_clips
              { clip with start_time := new_start }).eraseIdx clip_index },
       .ok (resolveReply track_index
              ((insertArrangement t.arrangement_clips
                 { clip with start_time := new_start }).eraseIdx clip_index) new_start)) := by
  have hg : t.getArrangementClips = .ok t.arrangement_clips := by
    simp [Track.getArrangementClips, hsupp]
  have hlt2 : clip_index <
      (insertArrangement t.arrangement_clips { clip with start_time := new_start }).length := by
    rw [insertArrangement_length]
    exact Nat.lt_succ_of_lt (getElem?_some_lt hclip)
  simp only [move_arrangement_clip, hg, hclip, Track.duplicateClipToArrangement, hsupp,
    if_true, List.getElem?_eq_getElem hlt2, Track.deleteClipAt]

theorem dup_ok (track_index : ℤ) (t : Track) (clip_index : ℕ) (dest_time : Time)
    (clip : Clip)
    (hsupp : t.arrangement_supported = true)
    (hclip : t.arrangement_clips[clip_index]? = some clip) :
    duplicate_arrangement_clip track_index t clip_index dest_time =
      ({ t with arrangement_clips :=
            insertArrangement t.arrangement_clips { clip with start_time := dest_time } },
       .ok (resolveReply track_index
              (insertArrangement t.arrangement_clips
                { clip with start_time := dest_time }) dest_time)) := by
  have hg : t.getArrangementClips = .ok t.arrangement_clips := by
    simp [Track.getArrangementClips, hsupp]
  simp only [duplicate_arrangement_clip, hg, hclip, Track.duplicateClipToArrangement,
    hsupp, if_true]

theorem dupToArr_ok (track_index : ℤ) (t : Track) (slot_index : ℕ) (dest_time : Time)
    (sc : Clip)
    (hsupp : t.arrangement_supported = true)
    (hslot : t.clip_slots[slot_index]? = some (some sc)) :
    duplicate_to_arrangement track_index t slot_index dest_time =
      ({ t with arrangement_clips :=
            insertArrangement t.arrangement_clips { sc with start_time := dest_time } },
       .ok (resolveReplyBare track_index
              (insertArrangement t.arrangement_clips
                { sc with start_time := dest_time }) dest_time)) := by
  simp only [duplicate_to_arrangement, hslot, Track.duplicateClipToArrangement, hsupp,
    if_true]

/-! ## Claims -/

/-- Claim C6: resolution by target time scans the track's arrangement-clip
sequence in order and returns the first index whose start_time differs from
the target by less than eps; for every target not within eps of any clip's
start_time it finds nothing (`none`) — it is a total function and never
raises. -/
theorem c6_resolver_spec (clips : List Clip) (target : Time) :
    ((∀ c ∈ clips, eps ≤ |c.start_time - target|) →
        resolveClipIndex clips target = none)
    ∧ (∀ i, resolveClipIndex clips target = some i →
        ∃ c, clips[i]? = some c ∧ |c.start_time - target| < eps ∧
          ∀ j, j < i → ∃ c', clips[j]? = some c' ∧ eps ≤ |c'.start_time - target|) :=
  ⟨fun h => (resolve_none_iff clips target).mpr h,
   fun i h => resolve_first_match clips target i h⟩

/-- Witness for C6: a track whose only clip starts at 4.0 beats resolves
nothing at 2.0 beats. -/
theorem c6_resolver_spec_witness :
    resolveClipIndex [⟨4000000, 0, 4000000, 0, 4000000, false⟩] 2000000 = none :=
  (c6_resolver_spec [⟨4000000, 0, 4000000, 0, 4000000, false⟩] 2000000).1 (by decide)

/-- Claim C10: the get/notes reply is a flat tuple of exactly five values
per note in the order pitch, start_time, duration, velocity, mute, and
add/notes consumes its parameters in groups of five in that same order, so
a get/notes reply is a valid add/notes parameter list recreating notes with
the same five attributes. -/
theorem c10_notes_roundtrip (notes : List MidiNote) :
    clip_add_notes (clip_get_notes notes) = some (notes.map noteToSpec)
    ∧ (clip_get_notes notes).length = 5 * notes.length
    ∧ ∀ n ∈ notes,
        (noteToSpec n).pitch = n.pitch ∧ (noteToSpec n).start_time = n.start_time
        ∧ (noteToSpec n).duration = n.duration ∧ (noteToSpec n).velocity = n.velocity
        ∧ (noteToSpec n).mute = n.mute := by
  refine ⟨?_, ?_, fun n _ => ⟨rfl, rfl, rfl, rfl, rfl⟩⟩
  · induction notes with
    | nil => rfl
    | cons n rest ih =>
        have hflat : clip_get_notes (n :: rest) =
            OscVal.i n.pitch :: OscVal.f n.start_time :: OscVal.f n.duration ::
            OscVal.f n.velocity :: OscVal.b n.mute :: clip_get_notes rest := by
          simp [clip_get_notes]
        rw [hflat]
        simp only [clip_add_notes, ih, Option.map_some', List.map_cons]
        rfl
  · induction notes with
    | nil => rfl
    | cons n rest ih =>
        have hflat : clip_get_notes (n :: rest) =
            OscVal.i n.pitch :: OscVal.f n.start_time :: OscVal.f n.duration ::
            OscVal.f n.velocity :: OscVal.b n.mute :: clip_get_notes rest := by
          simp [clip_get_notes]
        rw [hflat]
        simp only [List.length_cons, ih]
        ring

/-- Claim C4: for every clip and every split_time not strictly inside
(start_time, end_time) — including split_time equal to either bound —
split_arrangement_clip fails with the bounds ValueError, raised before any
mutating call, so the track is returned unchanged. -/
theorem c4_split_bounds (track_index : ℤ) (t : Track) (clip_index : ℕ)
    (split_time : Time) (clip : Clip)
    (hsupp : t.arrangement_supported = true)
    (hclip : t.arrangement_clips[clip_index]? = some clip)
    (hout : split_time ≤ clip.start_time ∨ clip.end_time ≤ split_time) :
    split_arrangement_clip track_index t clip_index split_time =
      (t, .error .boundsViolation) := by
  have hg : t.getArrangementClips = .ok t.arrangement_clips := by
    simp [Track.getArrangementClips, hsupp]
  simp only [split_arrangement_clip, hg, hclip, if_pos hout]

/-- Witness for C4: splitting the clip spanning beats `[0, 4)` exactly at
its start time 0 is rejected with the bounds error and leaves the track
unchanged. -/
theorem c4_split_bounds_witness :
    split_arrangement_clip 0 ⟨true, [⟨0, 0, 4000000, 0, 4000000, false⟩], []⟩ 0 0 =
      (⟨true, [⟨0, 0, 4000000, 0, 4000000, false⟩], []⟩, .error .boundsViolation) :=
  c4_split_bounds 0 ⟨true, [⟨0, 0, 4000000, 0, 4000000, false⟩], []⟩ 0 0
    ⟨0, 0, 4000000, 0, 4000000, false⟩ rfl rfl (Or.inl (by decide))

/-- Claim C7: every mutating operation's reply is the resolution tail
applied to the already-mutated returned state (so the mutation has taken
effect whatever the re-scan finds), and when the re-scan finds no clip at
the expected time that tail is the soft sentinel — `(track_index, -1)` for
create, move and duplicate, the bare `(track_index,)` for
duplicate_to_arrangement — instead of an error. -/
theorem c7_soft_sentinels (track_index : ℤ) (clips : List Clip) (target : Time)
    (t : Track) (clip_index si slot_index : ℕ) (clip slotClip : Clip)
    (start_time len dest : Time)
    (hnores : ∀ c ∈ clips, eps ≤ |c.start_time - target|)
    (hsupp : t.arrangement_supported = true)
    (hclip : t.arrangement_clips[clip_index]? = some clip)
    (hempty : findEmptySlot t.clip_slots 0 = some si)
    (hslot : t.clip_slots[slot_index]? = some (some slotClip)) :
    resolveReply track_index clips target = [track_index, -1]
    ∧ resolveReplyBare track_index clips target = [track_index]
    ∧ (create_arrangement_clip track_index t start_time len).2 =
        .ok (resolveReply track_index
              (create_arrangement_clip track_index t start_time len).1.arrangement_clips
              start_time)
    ∧ (move_arrangement_clip track_index t clip_index dest).2 =
        .ok (resolveReply track_index
              (move_arrangement_clip track_index t clip_index dest).1.arrangement_clips
              dest)
    ∧ (duplicate_arrangement_clip track_index t clip_index dest).2 =
        .ok (resolveReply track_index
              (duplicate_arrangement_clip track_index t clip_index dest).1.arrangement_clips
              dest)
    ∧ (duplicate_to_arrangement track_index t slot_index dest).2 =
        .ok (resolveReplyBare track_index
              (duplicate_to_arrangement track_index t slot_index dest).1.arrangement_clips
              dest) := by
  have hnone : resolveClipIndex clips target = none :=
    (resolve_none_iff clips target).mpr hnores
  refine ⟨resolveReply_none _ _ _ hnone, resolveReplyBare_none _ _ _ hnone, ?_, ?_, ?_, ?_⟩
  · rw [create_ok track_index t start_time len si hsupp hempty]
  · rw [move_ok track_index t clip_index dest clip hsupp hclip]
  · rw [dup_ok track_index t clip_index dest clip hsupp hclip]
  · rw [dupToArr_ok track_index t slot_index dest slotClip hsupp hslot]

/-- Witness for C7, projected at a concrete state: a track with one clip at
beat 1 and slots `[occupied, empty]`; no clip resolves at beat 5, so the
create/move/duplicate tail replies `(0, -1)` and the
duplicate_to_arrangement tail replies `(0,)`. -/
theorem c7_soft_sentinels_witness :
    resolveReply 0 [⟨1000000, 0, 1000000, 0, 1000000, false⟩] 5000000 = [0, -1]
    ∧ resolveReplyBare 0 [⟨1000000, 0, 1000000, 0, 1000000, false⟩] 5000000 = [0] := by
  have h := c7_soft_sentinels 0 [⟨1000000, 0, 1000000, 0, 1000000, false⟩] 5000000
    ⟨true, [⟨1000000, 0, 1000000, 0, 1000000, false⟩],
      [some ⟨1000000, 0, 1000000, 0, 1000000, false⟩, none]⟩
    0 1 0 ⟨1000000, 0, 1000000, 0, 1000000, false⟩ ⟨1000000, 0, 1000000, 0, 1000000, false⟩
    2000000 1000000 3000000 (by decide) rfl rfl rfl rfl
  exact ⟨h.1, h.2.1⟩

/-- Counterexample to Claim C1: track `[A at beat 0, B at beat 4]`, move
clip 1 (B) to beat 2.  The duplication inserts the copy at ordinal index 1,
shifting B to index 2; the handler then deletes
`arrangement_clips[clip_index] = arrangement_clips[1]` — the fresh copy —
so the clip whose start_time matches the old start_time (beat 4) survives
and no clip remains at beat 2, the opposite of re-resolving the original by
its old start_time. -/
theorem c1_counterexample :
    (move_arrangement_clip 0
        ⟨true, [⟨0, 0, 2000000, 0, 2000000, false⟩,
                ⟨4000000, 0, 2000000, 0, 2000000, false⟩], []⟩ 1 2000000).1.arrangement_clips =
      [⟨0, 0, 2000000, 0, 2000000, false⟩, ⟨4000000, 0, 2000000, 0, 2000000, false⟩]
    ∧ resolveClipIndex
        (move_arrangement_clip 0
          ⟨true, [⟨0, 0, 2000000, 0, 2000000, false⟩,
                  ⟨4000000, 0, 2000000, 0, 2000000, false⟩], []⟩ 1 2000000).1.arrangement_clips
        4000000 = some 1
    ∧ resolveClipIndex
        (move_arrangement_clip 0
          ⟨true, [⟨0, 0, 2000000, 0, 2000000, false⟩,
                  ⟨4000000, 0, 2000000, 0, 2000000, false⟩], []⟩ 1 2000000).1.arrangement_clips
        2000000 = none :=
  ⟨rfl, rfl, rfl⟩

/-- Claim C1 as amended: after duplicating the clip to new_start, the Move
handler re-fetches the clip at the original ordinal index `clip_index` of
the post-insertion sequence and deletes that clip — whatever its
start_time — then resolves the final position by new_start. -/
theorem c1_move_deletes_ordinal_index (track_index : ℤ) (t : Track)
    (clip_index : ℕ) (new_start : Time) (clip : Clip)
    (hsupp : t.arrangement_supported = true)
    (hclip : t.arrangement_clips[clip_index]? = some clip) :
    move_arrangement_clip track_index t clip_index new_start =
      ({ t with arrangement_clips :=
            (insertArrangement t.arrangement_clips
              { clip with start_time := new_start }).eraseIdx clip_index },
       .ok (resolveReply track_index
              ((insertArrangement t.arrangement_clips
                 { clip with start_time := new_start }).eraseIdx clip_index) new_start)) :=
  move_ok track_index t clip_index new_start clip hsupp hclip

/-- Witness for amended C1: moving the only clip (beat 0, span `[0, 1)`) to
beat 3 deletes the clip at ordinal index 0 of the post-insertion sequence
(the original) and resolves the copy at index 0 of the result. -/
theorem c1_move_deletes_ordinal_index_witness :
    move_arrangement_clip 0 ⟨true, [⟨0, 0, 1000000, 0, 1000000, false⟩], []⟩ 0 3000000 =
      (⟨true, [⟨3000000, 0, 1000000, 0, 1000000, false⟩], []⟩, .ok [0, 0]) :=
  c1_move_deletes_ordinal_index 0 ⟨true, [⟨0, 0, 1000000, 0, 1000000, false⟩], []⟩ 0
    3000000 ⟨0, 0, 1000000, 0, 1000000, false⟩ rfl rfl

/-- Claim C2, evaluated at the failing input: the only clip starts at beat
4 (span `[4, 8)`); moving it to beat 0 satisfies the claim's hypotheses
(the starts differ by more than eps and no clip pre-exists within eps of
beat 0), yet afterwards the track still holds exactly its original clip at
beat 4 and resolves nothing within eps of beat 0 — the handler deleted the
freshly inserted copy at ordinal index 0 instead of the original, and the
reply is the sentinel `(0, -1)`. -/
theorem c2_move_invariant_fails :
    move_arrangement_clip 0 ⟨true, [⟨4000000, 0, 4000000, 0, 4000000, false⟩], []⟩ 0 0 =
      (⟨true, [⟨4000000, 0, 4000000, 0, 4000000, false⟩], []⟩, .ok [0, -1])
    ∧ resolveClipIndex [⟨4000000, 0, 4000000, 0, 4000000, false⟩] 0 = none
    ∧ resolveClipIndex [⟨4000000, 0, 4000000, 0, 4000000, false⟩] 4000000 = some 0 :=
  ⟨rfl, rfl, rfl⟩

/-- Counterexample to Claim C8: on a host without arrangement support,
create_arrangement_clip first creates the scratch clip in the empty
session slot and only then hits the capability failure at
duplicate_clip_to_arrangement — so the error is raised after a mutation,
and the scratch clip leaks in the returned state. -/
theorem c8_counterexample :
    create_arrangement_clip 0 ⟨false, [], [none]⟩ 1000000 2000000 =
      (⟨false, [], [some (scratchClip 2000000)]⟩, .error .attributeError)
    ∧ (⟨false, [], [some (scratchClip 2000000)]⟩ : Track) ≠ ⟨false, [], [none]⟩ :=
  ⟨rfl, by decide⟩

/-- Claim C8 as amended: the explicit capability check guarding every
clip-scoped command fires before the clip is resolved; the track-level
delete/split/move/duplicate operations have no such check but fail at
their first arrangement access, before any mutation, when the host lacks
support; create, however, mutates a session slot (allocating the scratch
clip) before its capability failure. -/
theorem c8_capability (track_index : ℤ) (t : Track) (clip_index si : ℕ)
    (time1 time2 : Time)
    (hsupp : t.arrangement_supported = false)
    (hempty : findEmptySlot t.clip_slots 0 = some si) :
    arrangement_clip_callback_resolve t clip_index = .error .capabilityUnavailable
    ∧ delete_arrangement_clip track_index t clip_index = (t, .error .attributeError)
    ∧ split_arrangement_clip track_index t clip_index time1 = (t, .error .attributeError)
    ∧ move_arrangement_clip track_index t clip_index time1 = (t, .error .attributeError)
    ∧ duplicate_arrangement_clip track_index t clip_index time1 =
        (t, .error .attributeError)
    ∧ create_arrangement_clip track_index t time1 time2 =
        ({ t with clip_slots := t.clip_slots.set si (some (scratchClip time2)) },
         .error .attributeError) := by
  have hg : t.getArrangementClips = .error .attributeError := by
    simp [Track.getArrangementClips, hsupp]
  refine ⟨?_, ?_, ?_, ?_, ?_, ?_⟩
  · simp [arrangement_clip_callback_resolve, hsupp]
  · simp only [delete_arrangement_clip, hg]
  · simp only [split_arrangement_clip, hg]
  · simp only [move_arrangement_clip, hg]
  · simp only [duplicate_arrangement_clip, hg]
  · simp only [create_arrangement_clip, hempty, Track.duplicateClipToArrangement, hsupp,
      Bool.false_eq_true, if_false]

/-- Witness for amended C8: a support-less track with one empty slot — the
callback reports the capability error, the four index-based operations
fail without mutation, and create leaks the scratch clip into slot 0. -/
theorem c8_capability_witness :
    arrangement_clip_callback_resolve ⟨false, [], [none]⟩ 0 =
        .error .capabilityUnavailable
    ∧ delete_arrangement_clip 0 ⟨false, [], [none]⟩ 0 =
        (⟨false, [], [none]⟩, .error .attributeError)
    ∧ split_arrangement_clip 0 ⟨false, [], [none]⟩ 0 1000000 =
        (⟨false, [], [none]⟩, .error .attributeError)
    ∧ move_arrangement_clip 0 ⟨false, [], [none]⟩ 0 1000000 =
        (⟨false, [], [none]⟩, .error .attributeError)
    ∧ duplicate_arrangement_clip 0 ⟨false, [], [none]⟩ 0 1000000 =
        (⟨false, [], [none]⟩, .error .attributeError)
    ∧ create_arrangement_clip 0 ⟨false, [], [none]⟩ 1000000 3000000 =
        (⟨false, [], [some (scratchClip 3000000)]⟩, .error .attributeError) :=
  c8_capability 0 ⟨false, [], [none]⟩ 0 0 1000000 3000000 rfl rfl

theorem findEmptySlot_shift (slots : List (Option Clip)) (i : ℕ) :
    findEmptySlot slots i = (findEmptySlot slots 0).map (fun k => k + i) := by
  induction slots generalizing i with
  | nil => simp [findEmptySlot]
  | cons s rest ih =>
      cases s with
      | none => simp [findEmptySlot]
      | some c =>
          simp only [findEmptySlot]
          rw [ih (i + 1), ih 1]
          cases findEmptySlot rest 0 with
          | none => simp
          | some k => simp; omega

theorem findEmptySlot_none (slots : List (Option Clip))
    (h : ∀ s ∈ slots, s ≠ none) (i : ℕ) : findEmptySlot slots i = none := by
  induction slots generalizing i with
  | nil => rfl
  | cons s rest ih =>
      cases s with
      | none => exact absurd rfl (h none (by simp))
      | some c =>
          simp only [findEmptySlot]
          exact ih (fun s hs => h s (List.mem_cons_of_mem _ hs)) (i + 1)

theorem findEmptySlot_first (slots : List (Option Clip)) (si : ℕ)
    (h : findEmptySlot slots 0 = some si) :
    slots[si]? = some none ∧ ∀ j, j < si → ∃ c, slots[j]? = some (some c) := by
  induction slots generalizing si with
  | nil => simp [findEmptySlot] at h
  | cons s rest ih =>
      cases s with
      | none =>
          simp only [findEmptySlot] at h
          injection h with h
          subst h
          exact ⟨by simp, fun j hj => absurd hj (Nat.not_lt_zero j)⟩
      | some c =>
          simp only [findEmptySlot] at h
          rw [findEmptySlot_shift rest 1] at h
          cases hres : findEmptySlot rest 0 with
          | none => rw [hres] at h; simp at h
          | some k =>
              rw [hres] at h
              simp only [Option.map_some'] at h
              injection h with h
              obtain ⟨hk, hbefore⟩ := ih k hres
              subst h
              refine ⟨by simpa using hk, ?_⟩
              intro j hj
              match j with
              | 0 => exact ⟨c, by simp⟩
              | j' + 1 =>
                  obtain ⟨c', hc'⟩ := hbefore j' (by omega)
                  exact ⟨c', by simpa using hc'⟩

/-- Claim C5: Create scans the session slots in index order and uses the
first one with no clip (the chosen slot is empty and every earlier slot is
occupied); when every slot is occupied it fails with NoAvailableSlot before
any mutation; otherwise it allocates a scratch clip of the requested length
in that slot, duplicates it into the arrangement at start_time, deletes the
scratch (the slots end up exactly as before), and resolves the new clip by
start_time — replying `(track_index, index)` or the sentinel
`(track_index, -1)` via the resolution tail. -/
theorem c5_create_spec (track_index : ℤ) (t : Track) (start_time len : Time)
    (si : ℕ)
    (hsupp : t.arrangement_supported = true)
    (hempty : findEmptySlot t.clip_slots 0 = some si) :
    (∀ t' : Track, (∀ s ∈ t'.clip_slots, s ≠ none) →
        create_arrangement_clip track_index t' start_time len =
          (t', .error .noAvailableSlot))
    ∧ t.clip_slots[si]? = some none
    ∧ (∀ j, j < si → ∃ c, t.clip_slots[j]? = some (some c))
    ∧ (create_arrangement_clip track_index t start_time len).1.clip_slots = t.clip_slots
    ∧ (create_arrangement_clip track_index t start_time len).1.arrangement_clips =
        insertArrangement t.arrangement_clips
          { scratchClip len with start_time := start_time }
    ∧ ({ scratchClip len with start_time := start_time } : Clip).start_time = start_time
    ∧ ({ scratchClip len with start_time := start_time } : Clip).length = len
    ∧ (create_arrangement_clip track_index t start_time len).2 =
        .ok (resolveReply track_index
              (insertArrangement t.arrangement_clips
                { scratchClip len with start_time := start_time }) start_time) := by
  obtain ⟨hsi, hbefore⟩ := findEmptySlot_first t.clip_slots si hempty
  have hcr := create_ok track_index t start_time len si hsupp hempty
  refine ⟨?_, hsi, hbefore, ?_, ?_, rfl, ?_, ?_⟩
  · intro t' h
    simp only [create_arrangement_clip, findEmptySlot_none t'.clip_slots h 0]
  · rw [hcr]
    exact list_set_id t.clip_slots si none hsi
  · rw [hcr]
  · simp [scratchClip, Clip.length]
  · rw [hcr]

/-- Witness for C5: a track with slots `[occupied, empty]` — create picks
slot 1, restores the slots, inserts a clip of length 1 beat at beat 2, and
replies `(0, 0)`. -/
theorem c5_create_spec_witness :
    (create_arrangement_clip 0
        ⟨true, [], [some ⟨0, 0, 1000000, 0, 1000000, false⟩, none]⟩
        2000000 1000000).1.clip_slots =
      [some ⟨0, 0, 1000000, 0, 1000000, false⟩, none]
    ∧ (create_arrangement_clip 0
        ⟨true, [], [some ⟨0, 0, 1000000, 0, 1000000, false⟩, none]⟩
        2000000 1000000).2 = .ok [0, 0] := by
  have h := c5_create_spec 0
    ⟨true, [], [some ⟨0, 0, 1000000, 0, 1000000, false⟩, none]⟩ 2000000 1000000 1
    rfl rfl
  refine ⟨h.2.2.2.1, ?_⟩
  rw [h.2.2.2.2.2.2.2]
  rfl

theorem splitScanAux_cons (c : Clip) (rest : List Clip)
    (orig_start split_time : Time) (k : ℕ) (oi ni : Option ℕ) :
    splitScanAux (c :: rest) orig_start split_time k oi ni =
      if |c.start_time - orig_start| < eps ∧ oi = none then
        splitScanAux rest orig_start split_time (k + 1) (some k) ni
      else if |c.start_time - split_time| < eps ∧ ni = none then
        splitScanAux rest orig_start split_time (k + 1) oi (some k)
      else
        splitScanAux rest orig_start split_time (k + 1) oi ni := rfl

theorem splitScanAux_fst_some (clips : List Clip) (orig_start split_time : Time)
    (k a : ℕ) (ni : Option ℕ) :
    (splitScanAux clips orig_start split_time k (some a) ni).1 = some a := by
  induction clips generalizing k ni with
  | nil => rfl
  | cons c rest ih =>
      rw [splitScanAux_cons, if_neg (fun hc => Option.some_ne_none a hc.2)]
      by_cases h2 : |c.start_time - split_time| < eps ∧ ni = none
      · rw [if_pos h2]; exact ih (k + 1) (some k)
      · rw [if_neg h2]; exact ih (k + 1) ni

theorem splitScanAux_fst (clips : List Clip) (orig_start split_time : Time)
    (k : ℕ) (ni : Option ℕ) :
    (splitScanAux clips orig_start split_time k none ni).1 =
      (resolveClipIndex clips orig_start).map (fun j => j + k) := by
  induction clips generalizing k ni with
  | nil => simp [splitScanAux, resolveClipIndex, findFrom]
  | cons c rest ih =>
      rw [splitScanAux_cons, resolve_cons]
      by_cases h : |c.start_time - orig_start| < eps
      · rw [if_pos ⟨h, rfl⟩, if_pos h, splitScanAux_fst_some]
        simp
      · rw [if_neg (fun hc => h hc.1), if_neg h]
        by_cases h2 : |c.start_time - split_time| < eps ∧ ni = none
        · rw [if_pos h2, ih (k + 1) (some k)]
          cases resolveClipIndex rest orig_start with
          | none => simp
          | some m => simp; omega
        · rw [if_neg h2, ih (k + 1) ni]
          cases resolveClipIndex rest orig_start with
          | none => simp
          | some m => simp; omega

theorem splitScanAux_distinct (clips : List Clip) (orig_start split_time : Time)
    (k : ℕ) (oi ni : Option ℕ)
    (hoi : ∀ a, oi = some a → a < k) (hni : ∀ b, ni = some b → b < k)
    (hdis : ∀ a b, oi = some a → ni = some b → a ≠ b) :
    ∀ i j, splitScanAux clips orig_start split_time k oi ni = (some i, some j) →
      i ≠ j := by
  induction clips generalizing k oi ni with
  | nil =>
      intro i j h
      simp only [splitScanAux] at h
      injection h with h1 h2
      exact hdis i j h1 h2
  | cons c rest ih =>
      intro i j h
      rw [splitScanAux_cons] at h
      by_cases h1 : |c.start_time - orig_start| < eps ∧ oi = none
      · rw [if_pos h1] at h
        refine ih (k + 1) (some k) ni ?_ ?_ ?_ i j h
        · intro a ha; injection ha with ha; omega
        · intro b hb; exact Nat.lt_succ_of_lt (hni b hb)
        · intro a b ha hb
          injection ha with ha
          have := hni b hb
          omega
      · rw [if_neg h1] at h
        by_cases h2 : |c.start_time - split_time| < eps ∧ ni = none
        · rw [if_pos h2] at h
          refine ih (k + 1) oi (some k) ?_ ?_ ?_ i j h
          · intro a ha; exact Nat.lt_succ_of_lt (hoi a ha)
          · intro b hb; injection hb with hb; omega
          · intro a b ha hb
            injection hb with hb
            have := hoi a ha
            omega
        · rw [if_neg h2] at h
          refine ih (k + 1) oi ni ?_ ?_ hdis i j h
          · intro a ha; exact Nat.lt_succ_of_lt (hoi a ha)
          · intro b hb; exact Nat.lt_succ_of_lt (hni b hb)

/-- Claim C9: in split's post-duplication re-scan, one clip is never
selected as both pieces: the left piece is the first clip within eps of
the original start_time (exactly the resolver's first match), and whenever
both a left index and a right index are returned they are distinct. -/
theorem c9_split_scan_distinct (clips : List Clip) (orig_start split_time : Time)
    (i j : ℕ)
    (h : splitScanAux clips orig_start split_time 0 none none = (some i, some j)) :
    i ≠ j ∧ resolveClipIndex clips orig_start = some i := by
  constructor
  · exact splitScanAux_distinct clips orig_start split_time 0 none none
      (by simp) (by simp) (by simp) i j h
  · have hfst := splitScanAux_fst clips orig_start split_time 0 none
    rw [h] at hfst
    cases hres : resolveClipIndex clips orig_start with
    | none => rw [hres] at hfst; simp at hfst
    | some m => rw [hres] at hfst; simp at hfst; rw [hfst]

/-- Witness for C9: scanning `[clip at beat 0, clip at beat 2]` for
original start 0 and split time 2 selects indices 0 and 1, which are
distinct, and the left index is the resolver's first match at beat 0. -/
theorem c9_split_scan_distinct_witness :
    (0 : ℕ) ≠ 1
    ∧ resolveClipIndex [⟨0, 0, 4000000, 0, 4000000, false⟩,
        ⟨2000000, 0, 4000000, 0, 4000000, false⟩] 0 = some 0 :=
  c9_split_scan_distinct [⟨0, 0, 4000000, 0, 4000000, false⟩,
    ⟨2000000, 0, 4000000, 0, 4000000, false⟩] 0 2000000 0 1 rfl

theorem splitScanAux_snd_some (clips : List Clip) (orig_start split_time : Time)
    (k b : ℕ) (oi : Option ℕ) :
    (splitScanAux clips orig_start split_time k oi (some b)).2 = some b := by
  induction clips generalizing k oi with
  | nil => rfl
  | cons c rest ih =>
      rw [splitScanAux_cons]
      by_cases h1 : |c.start_time - orig_start| < eps ∧ oi = none
      · rw [if_pos h1]; exact ih (k + 1) (some k)
      · rw [if_neg h1, if_neg (fun hc => Option.some_ne_none b hc.2)]
        exact ih (k + 1) oi

theorem splitScanAux_snd (clips : List Clip) (orig_start split_time : Time)
    (k : ℕ) (oi : Option ℕ)
    (hdisj : ∀ y ∈ clips,
      ¬(|y.start_time - orig_start| < eps ∧ |y.start_time - split_time| < eps)) :
    (splitScanAux clips orig_start split_time k oi none).2 =
      (resolveClipIndex clips split_time).map (fun j => j + k) := by
  induction clips generalizing k oi with
  | nil => simp [splitScanAux, resolveClipIndex, findFrom]
  | cons c rest ih =>
      have hdrest : ∀ y ∈ rest,
          ¬(|y.start_time - orig_start| < eps ∧ |y.start_time - split_time| < eps) :=
        fun y hy => hdisj y (List.mem_cons_of_mem _ hy)
      rw [splitScanAux_cons, resolve_cons]
      by_cases h1 : |c.start_time - orig_start| < eps ∧ oi = none
      · have hnt : ¬|c.start_time - split_time| < eps :=
          fun hc => hdisj c (by simp) ⟨h1.1, hc⟩
        rw [if_pos h1, if_neg hnt, ih (k + 1) (some k) hdrest]
        cases resolveClipIndex rest split_time with
        | none => simp
        | some m => simp; omega
      · rw [if_neg h1]
        by_cases h2 : |c.start_time - split_time| < eps
        · rw [if_pos (⟨h2, rfl⟩ : _ ∧ (none : Option ℕ) = none), if_pos h2,
            splitScanAux_snd_some]
          simp
        · rw [if_neg (fun hc => h2 hc.1), if_neg h2, ih (k + 1) oi hdrest]
          cases resolveClipIndex rest split_time with
          | none => simp
          | some m => simp; omega

/-- Counterexample to Claim C3: a clip whose start_marker is not 0 — as
the right piece of any earlier split is — breaks the invariant.  The track
holds one clip at beat 2 with markers `[2, 4]` beats (span `[2, 4)`).
Splitting it at beat 3 sets the left piece's end_marker to `3 - 2 = 1`
beat, which under content-time semantics leaves the left piece ending at
beat 1 (a negative-length region, not `[2, 3)`), and sets the right
piece's start_marker to 1 beat, leaving it spanning `[3, 6)` rather than
`[3, 4)` — so the pieces do not span `[s, t)` and `[t, e)`. -/
theorem c3_counterexample :
    (split_arrangement_clip 0
        ⟨true, [⟨2000000, 2000000, 4000000, 0, 4000000, false⟩], []⟩ 0 3000000).2 =
      .ok [0, 0, 1]
    ∧ ((split_arrangement_clip 0
        ⟨true, [⟨2000000, 2000000, 4000000, 0, 4000000, false⟩], []⟩
        0 3000000).1.arrangement_clips.map
          (fun c => (c.start_time, c.end_time))) =
      [(2000000, 1000000), (3000000, 6000000)] :=
  ⟨rfl, rfl⟩

/-- Claim C3 as amended: for every clip with `start_marker = 0` (as every
freshly created clip has) spanning `[s, e)` and every split time `t` with
`s < t < e`, under the spec's working separation assumption (starts
pairwise at least eps apart and `t` at least eps from every existing
start), split returns two distinct indices holding a left piece spanning
`[s, t)` and a right piece spanning `[t, e)`, whose lengths sum to
`e - s`. -/
theorem c3_split_invariant (track_index : ℤ) (t : Track) (clip_index : ℕ)
    (split_time : Time) (clip : Clip)
    (hsupp : t.arrangement_supported = true)
    (hclip : t.arrangement_clips[clip_index]? = some clip)
    (hm0 : clip.start_marker = 0)
    (hin : clip.start_time < split_time ∧ split_time < clip.end_time)
    (hsep : ∀ c ∈ t.arrangement_clips, eps ≤ |c.start_time - split_time|)
    (hpair : t.arrangement_clips.Pairwise
      (fun a b => eps ≤ |a.start_time - b.start_time|)) :
    ∃ li ri : ℕ, ∃ lc rc : Clip,
      li ≠ ri
      ∧ (split_arrangement_clip track_index t clip_index split_time).2 =
          .ok [track_index, (li : ℤ), (ri : ℤ)]
      ∧ (split_arrangement_clip track_index t clip_index split_time).1.arrangement_clips[li]? =
          some lc
      ∧ (split_arrangement_clip track_index t clip_index split_time).1.arrangement_clips[ri]? =
          some rc
      ∧ lc.start_time = clip.start_time ∧ lc.end_time = split_time
      ∧ rc.start_time = split_time ∧ rc.end_time = clip.end_time
      ∧ lc.length + rc.length = clip.end_time - clip.start_time := by
  have hg : t.getArrangementClips = .ok t.arrangement_clips := by
    simp [Track.getArrangementClips, hsupp]
  have hcond : ¬(split_time ≤ clip.start_time ∨ clip.end_time ≤ split_time) := by
    push_neg
    exact ⟨hin.1, hin.2⟩
  have hmemclip : clip ∈ t.arrangement_clips := List.getElem?_mem hclip
  have hsepclip : eps ≤ |clip.start_time - split_time| := hsep clip hmemclip
  have hclipmid : clip ∈ insertArrangement t.arrangement_clips
      { clip with start_time := split_time } :=
    (insertArrangement_mem _ _ _).mpr (Or.inr hmemclip)
  have hNmid : ({ clip with start_time := split_time } : Clip) ∈
      insertArrangement t.arrangement_clips { clip with start_time := split_time } :=
    (insertArrangement_mem _ _ _).mpr (Or.inl rfl)
  have hclipN : clip ≠ ({ clip with start_time := split_time } : Clip) := by
    intro hEq
    have h1 : clip.start_time = split_time := congrArg Clip.start_time hEq
    exact absurd h1 (ne_of_lt hin.1)
  have huniq_s : ∀ y ∈ insertArrangement t.arrangement_clips
      { clip with start_time := split_time },
      |y.start_time - clip.start_time| < eps → y = clip := by
    intro y hy hys
    rcases (insertArrangement_mem _ _ _).mp hy with rfl | hyc
    · exfalso
      have h2 : eps ≤ |({ clip with start_time := split_time } : Clip).start_time -
          clip.start_time| := by
        show eps ≤ |split_time - clip.start_time|
        rw [abs_sub_comm]
        exact hsepclip
      exact absurd hys (not_lt.mpr h2)
    · by_contra hne
      have hsym : Symmetric (fun a b : Clip => eps ≤ |a.start_time - b.start_time|) := by
        intro a b hab
        show eps ≤ |b.start_time - a.start_time|
        rw [abs_sub_comm]
        exact hab
      have h2 := List.Pairwise.forall hsym hpair hyc hmemclip hne
      exact absurd hys (not_lt.mpr h2)
  have huniq_t : ∀ y ∈ insertArrangement t.arrangement_clips
      { clip with start_time := split_time },
      |y.start_time - split_time| < eps →
        y = ({ clip with start_time := split_time } : Clip) := by
    intro y hy hyt
    rcases (insertArrangement_mem _ _ _).mp hy with rfl | hyc
    · rfl
    · exact absurd hyt (not_lt.mpr (hsep y hyc))
  have hmatch_s : |clip.start_time - clip.start_time| < eps := by simp [eps]
  have hmatch_t : |({ clip with start_time := split_time } : Clip).start_time -
      split_time| < eps := by
    show |split_time - split_time| < eps
    simp [eps]
  obtain ⟨po, hpo, hpoget⟩ := resolve_unique _ clip.start_time clip hclipmid
    hmatch_s huniq_s
  obtain ⟨pn, hpn, hpnget⟩ := resolve_unique _ split_time
    ({ clip with start_time := split_time } : Clip) hNmid hmatch_t huniq_t
  have hpone : po ≠ pn := by
    intro hEq
    rw [hEq, hpnget] at hpoget
    exact hclipN (Option.some.inj hpoget).symm
  have hdisj : ∀ y ∈ insertArrangement t.arrangement_clips
      { clip with start_time := split_time },
      ¬(|y.start_time - clip.start_time| < eps ∧
        |y.start_time - split_time| < eps) := by
    intro y hy hc
    exact hclipN ((huniq_s y hy hc.1).symm.trans (huniq_t y hy hc.2))
  have hfst : (splitScanAux
      (insertArrangement t.arrangement_clips { clip with start_time := split_time })
      clip.start_time split_time 0 none none).1 = some po := by
    rw [splitScanAux_fst, hpo]
    simp
  have hsnd : (splitScanAux
      (insertArrangement t.arrangement_clips { clip with start_time := split_time })
      clip.start_time split_time 0 none none).2 = some pn := by
    rw [splitScanAux_snd _ _ _ 0 none hdisj, hpn]
    simp
  have hscan : splitScanAux
      (insertArrangement t.arrangement_clips { clip with start_time := split_time })
      clip.start_time split_time 0 none none = (some po, some pn) := by
    rw [← hfst, ← hsnd]
  have hsplit : split_arrangement_clip track_index t clip_index split_time =
      (Track.mk t.arrangement_supported
        (updateAt pn (trimStart (split_time - clip.start_time))
          (updateAt po (trimEnd (split_time - clip.start_time))
            (insertArrangement t.arrangement_clips
              { clip with start_time := split_time })))
        t.clip_slots,
       Except.ok [track_index, (po : ℤ), (pn : ℤ)]) := by
    simp only [split_arrangement_clip, hg, hclip, if_neg hcond,
      Track.duplicateClipToArrangement, hsupp, if_true, hscan]
  refine ⟨po, pn, trimEnd (split_time - clip.start_time) clip,
    trimStart (split_time - clip.start_time) ({ clip with start_time := split_time }),
    hpone, ?_, ?_, ?_, rfl, ?_, rfl, ?_, ?_⟩
  · rw [hsplit]
  · rw [hsplit]
    show (updateAt pn _ (updateAt po _ _))[po]? = _
    rw [updateAt_getElem_ne pn po _ _ hpone, updateAt_getElem_self, hpoget,
      Option.map_some']
  · rw [hsplit]
    show (updateAt pn _ (updateAt po _ _))[pn]? = _
    rw [updateAt_getElem_self, updateAt_getElem_ne po pn _ _ (Ne.symm hpone), hpnget,
      Option.map_some']
  · show clip.start_time + ((split_time - clip.start_time) - clip.start_marker) =
      split_time
    rw [hm0]
    ring
  · show split_time + (clip.end_marker - (split_time - clip.start_time)) =
      clip.end_time
    have he : clip.end_time = clip.start_time + (clip.end_marker - clip.start_marker) := rfl
    rw [he, hm0]
    ring
  · show ((split_time - clip.start_time) - clip.start_marker) +
      (clip.end_marker - (split_time - clip.start_time)) =
        clip.end_time - clip.start_time
    have he : clip.end_time = clip.start_time + (clip.end_marker - clip.start_marker) := rfl
    rw [he, hm0]
    ring

/-- Witness for amended C3, at the spec's concrete scenario: track 0 holds
one clip spanning beats `[0, 4)`; splitting at beat 2 replies `(0, 0, 1)`
and leaves pieces spanning `[0, 2)` and `[2, 4)`. -/
theorem c3_split_invariant_witness :
    (split_arrangement_clip 0
        ⟨true, [⟨0, 0, 4000000, 0, 4000000, false⟩], []⟩ 0 2000000).2 =
      .ok [0, 0, 1]
    ∧ ((split_arrangement_clip 0
        ⟨true, [⟨0, 0, 4000000, 0, 4000000, false⟩], []⟩ 0 2000000).1.arrangement_clips.map
          (fun c => (c.start_time, c.end_time))) =
      [(0, 2000000), (2000000, 4000000)]
    ∧ (∃ li ri : ℕ, ∃ lc rc : Clip,
        li ≠ ri
        ∧ (split_arrangement_clip 0
            ⟨true, [⟨0, 0, 4000000, 0, 4000000, false⟩], []⟩ 0 2000000).2 =
            .ok [0, (li : ℤ), (ri : ℤ)]
        ∧ (split_arrangement_clip 0
            ⟨true, [⟨0, 0, 4000000, 0, 4000000, false⟩], []⟩
            0 2000000).1.arrangement_clips[li]? = some lc
        ∧ (split_arrangement_clip 0
            ⟨true, [⟨0, 0, 4000000, 0, 4000000, false⟩], []⟩
            0 2000000).1.arrangement_clips[ri]? = some rc
        ∧ lc.start_time = 0 ∧ lc.end_time = 2000000
        ∧ rc.start_time = 2000000 ∧ rc.end_time = 4000000
        ∧ lc.length + rc.length = 4000000) :=
  ⟨rfl, rfl,
    c3_split_invariant 0 ⟨true, [⟨0, 0, 4000000, 0, 4000000, false⟩], []⟩ 0 2000000
      ⟨0, 0, 4000000, 0, 4000000, false⟩ rfl rfl rfl (by decide) (by decide)
      (by simp)⟩

/-- Witness for C10: one concrete note round-trips through the flat tuple
encoding. -/
theorem c10_notes_roundtrip_witness :
    clip_add_notes (clip_get_notes [⟨60, 0, 1000000, 100, false⟩]) =
      some [⟨60, 0, 1000000, 100, false⟩] :=
  (c10_notes_roundtrip [⟨60, 0, 1000000, 100, false⟩]).1

end AbletonOSC
